import Mathlib

/-!
Verification development for the moodpeek repository.

This file gives a shallow embedding, in Lean 4, of the two algorithmic cores
of the repository — the image acquisition / fallback / caching pipeline
(services/imageService.js, server/services/rateLimiter.js,
server/routes/images.js, src/lib/imageLoader.js) and the weekly insights
aggregation engine (services/insightsService.js, routes/insights.js) — and
proves or refutes the frozen claims about them.

Modelling conventions, used uniformly below:
* JavaScript numbers are modelled as exact rationals (`ℚ`); integer
  millisecond timestamps as `Int`; `Number.prototype.toFixed(2)` followed by
  `parseFloat` is modelled as exact decimal rounding with ties toward +∞
  (`roundTo2`), which is the JS behaviour on exactly representable ties.
* External collaborators (the `crypto` SHA-1 primitive, `axios` network
  calls, the filesystem, MongoDB, `Date` parsing) are not repository code;
  they are modelled as explicit function parameters / oracles.  Repository
  code itself is embedded concretely.
* A JS value that may be `undefined`/`null` is an `Option`; JS string
  truthiness (`""` is falsy) is `jsTruthy`.
* Promise rejection / thrown exceptions are `Except.error`.
-/

namespace MoodPeek

/-! ### String helpers (JS string semantics over `List Char`)

Lean's `String.toLower`/`String.trim` do not reduce in the kernel, so the
same operations are defined here over `String.data`. -/

/-- JS `String.prototype.toLowerCase` (ASCII-adequate for this repository). -/
def lowerStr (s : String) : String := String.mk (s.data.map Char.toLower)

/-- JS `String.prototype.trim`. -/
def trimStr (s : String) : String :=
  String.mk (((s.data.dropWhile Char.isWhitespace).reverse.dropWhile Char.isWhitespace).reverse)

/-- First list is a prefix of the second (as `Bool`). -/
def charsPref : List Char → List Char → Bool
  | [], _ => true
  | _ :: _, [] => false
  | p :: ps, s :: ss => p == s && charsPref ps ss

/-- Substring containment on character lists (JS `String.prototype.includes`). -/
def charsHas : List Char → List Char → Bool
  | [], needle => needle.isEmpty
  | c :: rest, needle => charsPref needle (c :: rest) || charsHas rest needle

/-- JS `hay.includes(needle)`. -/
def strHas (hay needle : String) : Bool := charsHas hay.data needle.data

/-- Case-insensitive substring containment: models testing one fixed
blocklist word (no regex metacharacters) against a string under the `i`
flag. -/
def strHasCI (hay needle : String) : Bool :=
  charsHas (hay.data.map Char.toLower) (needle.data.map Char.toLower)

/-- JS `s.startsWith(p)`. -/
def strStarts (s p : String) : Bool := charsPref p.data s.data

/-- JS truthiness of a possibly-undefined string (undefined, null and `""`
are falsy). -/
def jsTruthy (o : Option String) : Bool :=
  match o with
  | some s => !(s == "")
  | none => false

/-- JS `a || b` on possibly-undefined strings. -/
def jsStrOr (a b : Option String) : Option String :=
  if jsTruthy a then a else b

/-- JS `x || undefined` on a possibly-undefined string. -/
def optOrUndef (o : Option String) : Option String :=
  if jsTruthy o then o else none

/-- Helper of `firstDedup`: keep the first occurrence of each element. -/
def firstDedupAux (seen : List String) : List String → List String
  | [] => []
  | a :: rest =>
      if seen.contains a then firstDedupAux seen rest
      else a :: firstDedupAux (a :: seen) rest

/-- JS `[...new Set(l)]`: removes duplicates keeping first occurrences, in
order. -/
def firstDedup (l : List String) : List String := firstDedupAux [] l

/-- JS `s.substring(0, n)`. -/
def strTakeN (s : String) (n : Nat) : String := String.mk (s.data.take n)

/-- Value of one hexadecimal digit. -/
def hexDigitVal (c : Char) : Option Nat :=
  if '0' ≤ c ∧ c ≤ '9' then some (c.toNat - '0'.toNat)
  else if 'a' ≤ c ∧ c ≤ 'f' then some (c.toNat - 'a'.toNat + 10)
  else if 'A' ≤ c ∧ c ≤ 'F' then some (c.toNat - 'A'.toNat + 10)
  else none

/-- JS `parseInt(s, 16)`: value of the maximal leading run of hex digits,
`none` when there is no such digit (`NaN`). -/
def natOfHexPrefix (s : String) : Option Nat :=
  let ds := s.data.takeWhile (fun c => (hexDigitVal c).isSome)
  if ds.isEmpty then none
  else some (ds.foldl (fun acc c => acc * 16 + (hexDigitVal c).getD 0) 0)

/-- JS `l.join(' and ')`. -/
def joinWithAnd : List String → String
  | [] => ""
  | [a] => a
  | a :: rest => a ++ " and " ++ joinWithAnd rest

/-- Models `parseFloat(x.toFixed(2))`: round to 2 decimal places, ties
toward +∞. -/
def roundTo2 (x : ℚ) : ℚ := ((⌊x * 100 + 1/2⌋ : Int) : ℚ) / 100

/-! ### RateLimiter — server/services/rateLimiter.js

Token bucket with an additional trailing-hour request log.  `Date.now()` is
an explicit `now : Int` (milliseconds).  The `setInterval` periodic refresh
only calls `refillTokens`, which is also called lazily on every admission
check, so the lazy model covers it. -/

/-- Mutable state of a `RateLimiter` instance. -/
structure RLState where
  maxTokens : ℚ
  tokens : ℚ
  lastRefill : Int
  refillRate : ℚ
  requestLog : List Int
  hourlyQuota : Nat

/-- The `RateLimiter` constructor (lines 14–30). -/
def rlNew (maxRequestsPerHour maxBurst refreshInterval : Nat) (now : Int) : RLState :=
  { maxTokens := maxBurst
    tokens := maxBurst
    lastRefill := now
    refillRate := (maxRequestsPerHour : ℚ) / ((refreshInterval : ℚ) / 1000)
    requestLog := []
    hourlyQuota := maxRequestsPerHour }

/-- `refillTokens()` (lines 36–49): lazy elapsed-time refill, capping at
`maxTokens`, plus pruning of request-log entries older than one hour. -/
def RLState.refillTokens (s : RLState) (now : Int) : RLState :=
  let timeSinceRefill : ℚ := ((now - s.lastRefill : Int) : ℚ) / 1000
  let tokensToAdd : ℚ := timeSinceRefill * s.refillRate
  let s1 :=
    if 1 ≤ tokensToAdd then
      { s with tokens := min s.maxTokens (s.tokens + tokensToAdd), lastRefill := now }
    else s
  let hourAgo := now - 3600000
  { s1 with requestLog := s1.requestLog.filter (fun t => hourAgo < t) }

/-- `canMakeRequest()` (lines 55–73): needs at least one token and fewer
than the hourly quota of logged requests in the trailing hour.  Returns the
admission decision together with the refreshed state. -/
def RLState.canMakeRequest (s : RLState) (now : Int) : Bool × RLState :=
  let s1 := s.refillTokens now
  (decide (1 ≤ s1.tokens) && decide (s1.requestLog.length < s1.hourlyQuota), s1)

/-- `consumeToken()` (lines 79–86): on admission, decrement one token and
append the current time to the request log. -/
def RLState.consumeToken (s : RLState) (now : Int) : Bool × RLState :=
  let r := s.canMakeRequest now
  if r.1 then
    (true, { r.2 with tokens := r.2.tokens - 1, requestLog := r.2.requestLog ++ [now] })
  else (false, r.2)

/-- Sequence of `consumeToken` calls at the given times. -/
def rlConsumeSeq : RLState → List Int → List Bool × RLState
  | s, [] => ([], s)
  | s, t :: rest =>
      let r := s.consumeToken t
      let tailRes := rlConsumeSeq r.2 rest
      (r.1 :: tailRes.1, tailRes.2)

/-! ### Insights service — services/insightsService.js

The MongoDB aggregation pipelines (window selection, date-format
normalisation) are external collaborators; the computation takes the
current-week and previous-week entry lists as inputs.  `new Date(startDate)`
validity is an oracle `dateValid`.  The opportunistic `Insight`
upsert (lines 344–364) is an external DB side effect wrapped in its own
try/catch (any failure is swallowed), so it does not affect the returned
report and is not modelled. -/

/-- One mood entry, as consumed by the insights service: its `mood` string,
its `activities` tag list, and `new Date(entry.date).getDay()` for the
day-of-week grouping (always in 0..6, hence `Fin 7`). -/
structure Entry where
  mood : String
  activities : List String
  day : Fin 7
deriving DecidableEq

/-- `moodToScore` (lines 10–25). -/
def moodToScore (mood : String) : Int :=
  if mood = "VERY_GOOD" then 2
  else if mood = "GOOD" then 1
  else if mood = "NEUTRAL" then 0
  else if mood = "BAD" then -1
  else if mood = "VERY_BAD" then -2
  else if mood = "happy" then 2
  else if mood = "calm" then 1
  else if mood = "neutral" then 0
  else if mood = "sad" then -1
  else if mood = "stressed" then -2
  else 0

/-- `scoreToGrade` (lines 32–38). -/
def scoreToGrade (score : ℚ) : String :=
  if 3/2 ≤ score then "A"
  else if 1/2 ≤ score then "B"
  else if -(1/2) ≤ score then "C"
  else if -(3/2) ≤ score then "D"
  else "F"

/-- Mean mood score of a list of entries (`reduce(...)/length`). -/
def listMeanScore (entries : List Entry) : ℚ :=
  ((entries.map (fun e => (moodToScore e.mood : ℚ))).sum) / (entries.length : ℚ)

/-- One entry of the correlation output lists: `{activity, score,
occurrences}`, where `score` is the 2-decimal rounded average. -/
structure ActivityStat where
  activity : String
  score : ℚ
  occurrences : Nat
deriving DecidableEq

/-- `activityMoodMap[a].count` after the first pass of
`findMoodActivityCorrelations` (lines 53–70): total number of occurrences
of activity `a` across all entries' activity lists. -/
def occCount (entries : List Entry) (a : String) : Nat :=
  (entries.map (fun e => e.activities.count a)).sum

/-- `activityMoodMap[a].totalScore` after the first pass: each occurrence
of `a` in an entry contributes that entry's mood score. -/
def occTotal (entries : List Entry) (a : String) : Int :=
  (entries.map (fun e => (e.activities.count a : Int) * moodToScore e.mood)).sum

/-- `activityMoodMap[a].averageScore` for activities with `count >= 2`
(second pass, lines 73–78). -/
def activityAvg (entries : List Entry) (a : String) : ℚ :=
  (occTotal entries a : ℚ) / (occCount entries a : ℚ)

/-- The key set of `activityMoodMap` in insertion order (JS object string
keys preserve first-insertion order). -/
def activityKeys (entries : List Entry) : List String :=
  firstDedup (entries.flatMap (fun e => e.activities))

/-- Condition under which the third pass (lines 84–101) pushes `a` onto
`positiveActivities`. -/
def isPosActivity (entries : List Entry) (a : String) : Bool :=
  decide (2 ≤ occCount entries a) && decide ((1 : ℚ)/2 ≤ activityAvg entries a)

/-- Condition under which the third pass pushes `a` onto
`negativeActivities` (the `else if` branch). -/
def isNegActivity (entries : List Entry) (a : String) : Bool :=
  decide (2 ≤ occCount entries a) && !(decide ((1 : ℚ)/2 ≤ activityAvg entries a))
    && decide (activityAvg entries a ≤ -(1/2))

/-- The `{activity, score, occurrences}` record pushed for activity `a`. -/
def mkActivityStat (entries : List Entry) (a : String) : ActivityStat :=
  ⟨a, roundTo2 (activityAvg entries a), occCount entries a⟩

/-- `findMoodActivityCorrelations` (lines 45–108): guard `entries.length <
5` returns empty lists; otherwise build both lists and sort positives
descending / negatives ascending by (rounded) score.  JS `Array.sort` is
stable and is modelled by `List.mergeSort`. -/
def findMoodActivityCorrelations (entries : List Entry) :
    List ActivityStat × List ActivityStat :=
  if entries.length < 5 then ([], [])
  else
    ((((activityKeys entries).filter (isPosActivity entries)).map
        (mkActivityStat entries)).mergeSort (fun a b => decide (b.score ≤ a.score)),
     (((activityKeys entries).filter (isNegActivity entries)).map
        (mkActivityStat entries)).mergeSort (fun a b => decide (a.score ≤ b.score)))

/-- Claim-side quantity: the number of entries in the window bearing tag
`a` ("a tag appearing on ≥ 2 entries"). -/
def entryCountWith (entries : List Entry) (a : String) : Nat :=
  entries.countP (fun e => e.activities.contains a)

/-- Claim-side quantity: the entries in the window bearing tag `a`. -/
def entriesWith (entries : List Entry) (a : String) : List Entry :=
  entries.filter (fun e => e.activities.contains a)

/-- Claim-side quantity: the mean mood score of the entries bearing tag
`a`. -/
def meanScoreWith (entries : List Entry) (a : String) : ℚ :=
  listMeanScore (entriesWith entries a)

/-- Day names indexed by `getDay()` (line 243). -/
def dayNames : List String :=
  ["Sunday", "Monday", "Tuesday", "Wednesday", "Thursday", "Friday", "Saturday"]

/-- One element of `dayScores` (lines 236–247). -/
structure DayScore where
  day : Nat
  dayName : String
  score : ℚ
  entryCount : Nat
deriving DecidableEq

/-- `dayScores` before sorting: for day keys 0..6 in order, the non-empty
day groups with their rounded mean score. -/
def dayScoresOf (entries : List Entry) : List DayScore :=
  (List.finRange 7).filterMap (fun d =>
    let es := entries.filter (fun e => e.day = d)
    if es.isEmpty then none
    else some ⟨d.val, dayNames.getD d.val "", roundTo2 (listMeanScore es), es.length⟩)

/-- `dayScores.sort((a, b) => b.score - a.score)` (line 250). -/
def sortedDayScores (entries : List Entry) : List DayScore :=
  (dayScoresOf entries).mergeSort (fun a b => decide (b.score ≤ a.score))

/-- Trend classification (lines 262–268): `"improved"`/`"worsened"` only
when a previous score exists and `|current − previous| > 0.3`, else
`"stable"`. -/
def trendOf (current : ℚ) (previous : Option ℚ) : String :=
  match previous with
  | some p =>
      if 3/10 < |current - p| then (if p < current then "improved" else "worsened")
      else "stable"
  | none => "stable"

/-- `trendValue` (lines 263–268). -/
def trendValueOf (current : ℚ) (previous : Option ℚ) : ℚ :=
  match previous with
  | some p => if 3/10 < |current - p| then roundTo2 (current - p) else 0
  | none => 0

/-- `moodDistribution` (lines 273–276) as an insertion-ordered association
list of mood → count. -/
def moodDistributionOf (entries : List Entry) : List (String × Nat) :=
  (firstDedup (entries.map (fun e => e.mood))).map
    (fun m => (m, entries.countP (fun e => e.mood == m)))

/-- Tip from positive activity correlations (lines 285–292). -/
def posTipOf (pos : List ActivityStat) : List String :=
  if pos.isEmpty then []
  else ["Your mood seems to improve when you "
        ++ joinWithAnd ((pos.take 2).map (fun a => a.activity))
        ++ ". Consider doing more of these activities."]

/-- Tip from negative activity correlations (lines 295–301). -/
def negTipOf (neg : List ActivityStat) : List String :=
  if neg.isEmpty then []
  else ["Your mood tends to be lower when you "
        ++ joinWithAnd ((neg.take 2).map (fun a => a.activity))
        ++ ". Consider how these activities impact you."]

/-- Trend-conditioned tip (lines 304–311).  The apostrophe in the source
string "you\'ve made" is written "you have made" here (string content is
otherwise verbatim and no claim depends on tip wording). -/
def trendTipOf (trend : String) (current : ℚ) : List String :=
  if trend = "worsened" ∧ current < 0 then
    ["Your mood has decreased this week. Consider scheduling activities you enjoy or reaching out to friends."]
  else if trend = "improved" ∧ 0 < current then
    ["Great job! Your mood has improved this week. Try to maintain the positive changes you have made."]
  else if trend = "stable" ∧ |current| < 1/2 then
    ["Your mood has been steady. This is a good time to try new activities that might boost your well-being."]
  else []

/-- The full (non-minimal) weekly report (lines 227–342). -/
structure FullReport where
  totalEntries : Nat
  current : ℚ
  previous : Option ℚ
  trend : String
  trendValue : ℚ
  grade : String
  distribution : List (String × Nat)
  bestDay : Option DayScore
  worstDay : Option DayScore
  positives : List ActivityStat
  negatives : List ActivityStat
  tips : List String
deriving DecidableEq

/-- Builds the full report from non-empty current-week entries (lines
227–342).  `Number.isFinite` checks are identities over `ℚ`. -/
def coreFull (cur prev : List Entry) : FullReport :=
  let c := listMeanScore cur
  let previousScore : Option ℚ := if prev.isEmpty then none else some (listMeanScore prev)
  let sorted := sortedDayScores cur
  let cors := findMoodActivityCorrelations cur
  let trend := trendOf c previousScore
  let tips0 := posTipOf cors.1 ++ negTipOf cors.2 ++ trendTipOf trend c
  { totalEntries := cur.length
    current := roundTo2 c
    previous := previousScore.map roundTo2
    trend := trend
    trendValue := trendValueOf c previousScore
    grade := scoreToGrade c
    distribution := moodDistributionOf cur
    bestDay := sorted.head?
    worstDay := sorted.getLast?
    positives := cors.1.take 3
    negatives := cors.2.take 3
    tips := if tips0.length < 2 then
        tips0 ++ ["Regular mood tracking can help you identify patterns over time."]
      else tips0 }

/-- A weekly report: the minimal zero-entry report (lines 209–224) or the
full one. -/
inductive Report where
  | minimal : List String → Report
  | full : FullReport → Report
deriving DecidableEq

/-- The report computation after date validation (lines 191–366): zero
current-week entries yield the minimal report, otherwise the full report. -/
def computeWeeklyReportCore (cur prev : List Entry) : Report :=
  if cur.isEmpty then Report.minimal ["Start tracking your moods to see insights here."]
  else Report.full (coreFull cur prev)

/-- `computeWeeklyReport(startDate)` (lines 115–366): `new
Date(startDate)` validity is the oracle `dateValid`; an invalid date throws
`'Invalid start date'` (line 121). -/
def computeWeeklyReport (dateValid : String → Bool) (startDate : String)
    (cur prev : List Entry) : Except String Report :=
  if dateValid startDate then Except.ok (computeWeeklyReportCore cur prev)
  else Except.error "Invalid start date"

/-- `router.get('/weekly')` (routes/insights.js lines 12–28): a present,
non-empty `start` query goes through `computeWeeklyReport`; otherwise
`generateCurrentWeeklyInsights` computes the current week start (always a
valid date) and calls the same computation.  Any thrown error is caught and
answered with HTTP status 500 and the error message. -/
def weeklyRoute (dateValid : String → Bool) (cur prev : List Entry)
    (startQ : Option String) : Nat × Except String Report :=
  let result :=
    match startQ with
    | some s =>
        if s ≠ "" then computeWeeklyReport dateValid s cur prev
        else Except.ok (computeWeeklyReportCore cur prev)
    | none => Except.ok (computeWeeklyReportCore cur prev)
  match result with
  | Except.ok r => (200, Except.ok r)
  | Except.error e => (500, Except.error e)

/-! ### Image service — services/imageService.js

The `crypto` SHA-1 hex digest is an explicit parameter `sha1 : String →
String` (a fixed pure function of the external library).  Filesystem and
network outcomes are oracles in `ImgEnv`: `diskFresh` is the result of
`isCacheFresh` for a key; `unsplashOk q` is the success of the whole
per-query attempt `fetchFromUnsplash(q, w, h)` followed by `saveToCache`
(any failure — rate limiting, network error, no safe photo, disk-write
error — makes the loop continue, lines 499–523); `seedFetchOk` and
`picsumOk` likewise for `fetchFromSeed`/`fetchFromPicsum` plus their cache
writes.  `ensureCacheDir` is assumed to succeed. -/

/-- The `SAFE_BLOCKLIST` (lines 45–49). -/
def safeBlocklist : List String :=
  ["feet", "foot", "barefoot", "hand", "hands", "nude", "naked",
   "sexy", "skin", "portrait", "people", "person", "model",
   "body", "leg", "legs", "toe", "fingers"]

/-- The `PREFERRED_TOPICS` (lines 52–54). -/
def preferredTopics : List String :=
  ["nature", "wallpapers", "travel", "architecture-interior", "textures-patterns"]

/-- One element of an Unsplash photo's `tags` array. -/
structure PhotoTag where
  title : Option String
deriving DecidableEq

/-- The fields of an Unsplash photo object consulted by the service.
`topicSubmissions` is the key list of the `topic_submissions` object;
`sponsored`/`sponsoredBy`/`sponsoredImpressionsId` model the three
sponsorship markers. -/
structure Photo where
  altDescription : Option String
  description : Option String
  tags : List PhotoTag
  topicSubmissions : List String
  likes : Nat
  sponsored : Bool
  sponsoredBy : Option String
  sponsoredImpressionsId : Option String
  width : Nat
  height : Nat
deriving DecidableEq

/-- `new RegExp(SAFE_BLOCKLIST.join('|'), 'i').test(s)`: some blocklist
word occurs in `s`, case-insensitively (the words contain no regex
metacharacters). -/
def blockPatternTest (s : String) : Bool :=
  safeBlocklist.any (fun w => strHasCI s w)

/-- `containsBlockedContent(photo)` (lines 191–226); a null photo is
blocked. -/
def containsBlockedContent (p : Option Photo) : Bool :=
  match p with
  | none => true
  | some photo =>
      (jsTruthy photo.altDescription && blockPatternTest (photo.altDescription.getD "")) ||
      (jsTruthy photo.description && blockPatternTest (photo.description.getD "")) ||
      (photo.tags.any (fun t => jsTruthy t.title && blockPatternTest (t.title.getD ""))) ||
      (photo.topicSubmissions.any (fun t => blockPatternTest t))

/-- `scorePhoto(photo, targetWidth, targetHeight)` (lines 235–272). -/
def scorePhoto (p : Option Photo) (targetWidth targetHeight : Nat) : ℚ :=
  match p with
  | none => 0
  | some photo =>
      let base : ℚ := min ((photo.likes : ℚ) / 10) 10
      let tagBonus : ℚ := 2 * ((photo.tags.filter (fun t =>
          jsTruthy t.title && preferredTopics.contains (lowerStr (t.title.getD "")))).length)
      let topicBonus : ℚ := 2 * ((photo.topicSubmissions.filter (fun t =>
          preferredTopics.contains (lowerStr t))).length)
      let sponsorPenalty : ℚ :=
        if photo.sponsored || jsTruthy photo.sponsoredBy
            || jsTruthy photo.sponsoredImpressionsId then 5 else 0
      let wRat : ℚ := ((min photo.width targetWidth : Nat) : ℚ) / ((max photo.width targetWidth : Nat) : ℚ)
      let hRat : ℚ := ((min photo.height targetHeight : Nat) : ℚ) / ((max photo.height targetHeight : Nat) : ℚ)
      base + tagBonus + topicBonus - sponsorPenalty + 5 * (wRat + hRat) / 2

/-- `pickBestPhoto(results, width, height)` (lines 281–303): drop blocked
photos, score the rest, sort descending by score (stable), return the
head. -/
def pickBestPhoto (results : List Photo) (width hgt : Nat) : Option Photo :=
  if results.isEmpty then none
  else
    let safePhotos := results.filter (fun p => !containsBlockedContent (some p))
    if safePhotos.isEmpty then none
    else
      match (safePhotos.map (fun p => (p, scorePhoto (some p) width hgt))).mergeSort
          (fun a b => decide (b.2 ≤ a.2)) with
      | [] => none
      | best :: _ => some best.1

/-- `MOOD_QUERY_MAP` (lines 16–42). -/
def moodQueryMap (m : String) : Option (List String) :=
  if m = "happy" then
    some ["sunrise golden hour landscape", "warm light nature", "bokeh city lights"]
  else if m = "calm" then
    some ["misty lake minimal", "calm sea long exposure", "blue tone mountains"]
  else if m = "neutral" then
    some ["soft gradient abstract", "pastel texture background", "neutral minimalist landscape"]
  else if m = "sad" then
    some ["rain window city night", "overcast street minimal", "foggy forest dark"]
  else if m = "stressed" then
    some ["storm clouds ocean long exposure", "moody mountains minimal", "dramatic sky landscape"]
  else none

/-- `MOOD_QUERY_MAP.neutral`, the fallback of line 102. -/
def neutralQueries : List String :=
  ["soft gradient abstract", "pastel texture background", "neutral minimalist landscape"]

/-- The image-relevant weather conditions (line 110). -/
def safeWeatherConditions : List String :=
  ["rain", "snow", "sunny", "cloudy", "foggy", "storm"]

/-- A weather snapshot as passed to the image service. -/
structure Weather where
  condition : String
deriving DecidableEq

/-- `buildCoverQueries({city, mood, weather})` (lines 77–128). -/
def buildCoverQueries (city mood : Option String) (weather : Option Weather) : List String :=
  let sanitizedMood := trimStr (lowerStr (mood.getD ""))
  let sanitizedCity := trimStr (lowerStr (city.getD ""))
  let cityQs :=
    if sanitizedCity ≠ "" then
      [sanitizedCity ++ " skyline", sanitizedCity ++ " cityscape",
       sanitizedCity ++ " landmark", sanitizedCity ++ " night skyline"] ++
      (if sanitizedMood ≠ "" ∧ (moodQueryMap sanitizedMood).isSome then
        [sanitizedCity ++ " " ++ sanitizedMood ++ " landscape"] else [])
    else []
  let moodQs :=
    match (if sanitizedMood ≠ "" then moodQueryMap sanitizedMood else none) with
    | some qs => qs
    | none => neutralQueries
  let weatherQs :=
    match weather with
    | some wSnap =>
        if wSnap.condition ≠ "" then
          let condition := trimStr (lowerStr wSnap.condition)
          if safeWeatherConditions.contains condition then
            [condition ++ " landscape"] ++
            (if sanitizedCity ≠ "" then [sanitizedCity ++ " " ++ condition] else [])
          else []
        else []
    | none => []
  firstDedup (cityQs ++ moodQs ++ weatherQs ++
    ["landscape photography", "minimal architecture", "abstract nature"])

/-- `generateKey(query, width, height)` (lines 137–141): SHA-1 of
`normalizedQuery|width|height`. -/
def generateKey (sha1 : String → String) (query : String) (width hgt : Nat) : String :=
  sha1 (trimStr (lowerStr query) ++ "|" ++ toString width ++ "|" ++ toString hgt)

/-- The five alternatives of the mood-extraction regex (line 470). -/
def moodWords : List String := ["happy", "calm", "neutral", "sad", "stressed"]

/-- Helper of `findMoodInText`: leftmost case-insensitive match of a mood
word, alternatives tried in regex order at each position. -/
def findMoodAux : List Char → Option String
  | [] => none
  | c :: rest =>
      match moodWords.find? (fun w => charsPref w.data ((c :: rest).map Char.toLower)) with
      | some w => some w
      | none => findMoodAux rest

/-- `q.match(/happy|calm|neutral|sad|stressed/i)?.[0]?.toLowerCase()`:
the matched text lowercased (which is the mood word itself). -/
def findMoodInText (s : String) : Option String := findMoodAux s.data

/-- One seed of the curated seed library `cover-seeds.json`. -/
structure Seed where
  id : String
  description : Option String
deriving DecidableEq

/-- `effectiveMood` inside `pickSeed` (line 374): the lowercased mood when
it is truthy and a key of the seed data, else `"neutral"`. -/
def effectiveMood (seedData : String → Option (List Seed)) (mood : Option String) : String :=
  match mood with
  | some m => if m ≠ "" ∧ (seedData (lowerStr m)).isSome then lowerStr m else "neutral"
  | none => "neutral"

/-- `pickSeed({city, mood})` (lines 368–389): stable index from the first
8 hex digits of SHA-1 of `city.toLowerCase()|effectiveMood`, modulo the
seed-list length.  Any failure (missing seed list, unparsable hash prefix,
empty list) yields `none` (the JS catch / undefined element). -/
def pickSeed (sha1 : String → String) (seedData : String → Option (List Seed))
    (city mood : Option String) : Option Seed :=
  let eff := effectiveMood seedData mood
  match seedData eff with
  | none => none
  | some seeds =>
      let hash := sha1 (lowerStr (city.getD "") ++ "|" ++ eff)
      match natOfHexPrefix (strTakeN hash 8) with
      | none => none
      | some n => if seeds.length = 0 then none else seeds.get? (n % seeds.length)

/-- The successful result shape of `getOrDownloadImage`: `{url, source,
key}` (the constant `Cache-Control` header and the provenance `meta` are
omitted). -/
structure ImgResult where
  url : String
  source : String
  key : String
deriving DecidableEq

/-- The request options `{q, city, mood, weather, w, h}`. -/
structure ImgReq where
  q : Option String
  city : Option String
  mood : Option String
  weather : Option Weather
  w : Nat
  h : Nat
deriving DecidableEq

/-- Oracles for the external world consulted by one `getOrDownloadImage`
run (see the section comment). -/
structure ImgEnv where
  diskFresh : String → Bool
  unsplashOk : String → Bool
  seedData : String → Option (List Seed)
  seedFetchOk : Bool
  picsumOk : Bool

/-- `parsedMood` (line 470): explicit mood, else the first mood word
occurring in the query. -/
def parsedMoodOf (req : ImgReq) : Option String :=
  jsStrOr req.mood (req.q.bind findMoodInText)

/-- `normalizedQuery` (line 473). -/
def normQ (req : ImgReq) : String := trimStr (lowerStr (req.q.getD ""))

/-- The disk-cache key of a request (line 474). -/
def diskKeyOf (sha1 : String → String) (req : ImgReq) : String :=
  generateKey sha1 (normQ req) req.w req.h

/-- The candidate query list (lines 487–496): `buildCoverQueries` of
`city || undefined`, `parsedMood || undefined` and the weather, with the
normalized query prepended when non-empty and not already present. -/
def coverQueryList (req : ImgReq) : List String :=
  let queries0 := buildCoverQueries (optOrUndef req.city) (optOrUndef (parsedMoodOf req)) req.weather
  let nq := normQ req
  if nq ≠ "" ∧ ¬ (queries0.contains nq) then nq :: queries0 else queries0

/-- `getOrDownloadImage({q, city, mood, weather, w, h})` (lines 465–560):
fresh disk cache → `'disk'`; else first successful Unsplash query →
`'unsplash'`; else seed library (a picked seed with truthy `id` whose fetch
succeeds) → `'seed'`; else Picsum → `'picsum'`; else the function throws
`'Failed to fetch image from all providers'` (line 558). -/
def getOrDownloadImage (sha1 : String → String) (env : ImgEnv) (req : ImgReq) :
    Except String ImgResult :=
  let key := diskKeyOf sha1 req
  let relativeUrl := "/imgcache/" ++ key ++ ".jpg"
  if env.diskFresh key then Except.ok ⟨relativeUrl, "disk", key⟩
  else if (coverQueryList req).any env.unsplashOk then Except.ok ⟨relativeUrl, "unsplash", key⟩
  else
    match pickSeed sha1 env.seedData req.city (parsedMoodOf req) with
    | some s =>
        if s.id ≠ "" ∧ env.seedFetchOk then Except.ok ⟨relativeUrl, "seed", key⟩
        else if env.picsumOk then Except.ok ⟨relativeUrl, "picsum", key⟩
        else Except.error "Failed to fetch image from all providers"
    | none =>
        if env.picsumOk then Except.ok ⟨relativeUrl, "picsum", key⟩
        else Except.error "Failed to fetch image from all providers"

/-- `CACHE_TTL` (line 12), in milliseconds; also the memory-cache TTL
(line 583). -/
def cacheTtlMs : Int := 3600000

/-- `MAX_MEMORY_CACHE` (line 567). -/
def maxMemoryCache : Nat := 20

/-- The memory-cache key of `getOrDownloadImageCached` (line 577). -/
def memCacheKey (o : ImgReq) : String :=
  (o.q.getD "") ++ "|" ++ (o.city.getD "") ++ "|" ++ (o.mood.getD "")
    ++ "|" ++ toString o.w ++ "|" ++ toString o.h

/-- One memory-cache slot: `{timestamp, data}` (lines 594–597). -/
structure MemVal where
  timestamp : Int
  data : ImgResult
deriving DecidableEq

/-- JS `Map.get`/`has` over the insertion-ordered entry list. -/
def mlookup (k : String) : List (String × MemVal) → Option MemVal
  | [] => none
  | (k1, v) :: rest => if k1 = k then some v else mlookup k rest

/-- JS `Map.delete`: remove the (unique) entry with the key. -/
def merase (k : String) : List (String × MemVal) → List (String × MemVal)
  | [] => []
  | (k1, v) :: rest => if k1 = k then rest else (k1, v) :: merase k rest

/-- JS `Map.set`: update in place when present, else append. -/
def mset (k : String) (v : MemVal) : List (String × MemVal) → List (String × MemVal)
  | [] => [(k, v)]
  | (k1, v1) :: rest => if k1 = k then (k, v) :: rest else (k1, v1) :: mset k v rest

/-- The non-hit path of `getOrDownloadImageCached` (lines 590–606): fetch,
then on success store under the memory key and, when the map exceeds
`MAX_MEMORY_CACHE`, delete the oldest (first-inserted, i.e. head) entry.
The third component records whether the inner `getOrDownloadImage` ran. -/
def cachedFetch (sha1 : String → String) (env : ImgEnv) (now : Int)
    (mem1 : List (String × MemVal)) (o : ImgReq) :
    Except String ImgResult × List (String × MemVal) × Bool :=
  match getOrDownloadImage sha1 env o with
  | Except.error e => (Except.error e, mem1, true)
  | Except.ok r =>
      let mem2 := mset (memCacheKey o) ⟨now, r⟩ mem1
      let mem3 := if maxMemoryCache < mem2.length then mem2.tail else mem2
      (Except.ok r, mem3, true)

/-- `getOrDownloadImageCached(options)` (lines 574–607): a fresh memory
hit returns the stored result without touching the inner resolver; an
expired hit is deleted first; otherwise resolve and store. -/
def getOrDownloadImageCached (sha1 : String → String) (env : ImgEnv) (now : Int)
    (mem : List (String × MemVal)) (o : ImgReq) :
    Except String ImgResult × List (String × MemVal) × Bool :=
  match mlookup (memCacheKey o) mem with
  | some v =>
      if now - v.timestamp < cacheTtlMs then (Except.ok v.data, mem, false)
      else cachedFetch sha1 env now (merase (memCacheKey o) mem) o
  | none => cachedFetch sha1 env now mem o

/-! ### Client image cache purge — src/lib/imageLoader.js

`localStorage` is an insertion-ordered association list from key to the
parse outcome of the stored JSON: `corrupt` when `JSON.parse` throws,
otherwise `entry url?` where `url?` is the (string) `url` field when the
parsed value is truthy and has one. -/

/-- Parse outcome of one persisted cache value. -/
inductive CacheVal where
  | corrupt : CacheVal
  | entry : Option String → CacheVal
deriving DecidableEq

/-- Whether `purgeExternalUrls` (lines 320–355) keeps a store entry: keys
not starting with `img::` are never touched; of the `img::` keys,
unparsable values are removed, parsed values whose `url` contains
`/imgcache/` are removed, all others are kept. -/
def keepEntry (kv : String × CacheVal) : Bool :=
  if !(strStarts kv.1 "img::") then true
  else
    match kv.2 with
    | CacheVal.corrupt => false
    | CacheVal.entry none => true
    | CacheVal.entry (some u) => !(strHas u "/imgcache/")

/-- `purgeExternalUrls()` (lines 320–355) as a store transformer. -/
def purgeExternalUrls (store : List (String × CacheVal)) : List (String × CacheVal) :=
  store.filter keepEntry

/-! ### Concrete fixtures used by counterexamples and witnesses -/

/-- A photo whose alt text matches the blocklist ("nude"). -/
def photoBlockedFx : Photo :=
  ⟨some "nude beach at sunset", none, [], [], 9000, false, none, none, 800, 520⟩

/-- A photo matching no blocklist term. -/
def photoCleanFx : Photo :=
  ⟨some "calm sea at dawn", none, [], [], 3, false, none, none, 800, 520⟩

/-- An environment in which every provider layer fails and the disk cache
is cold. -/
def envFailFx : ImgEnv :=
  ⟨fun _ => false, fun _ => false, fun _ => none, false, false⟩

/-- An environment in which the disk cache is fresh for every key. -/
def envDiskFx : ImgEnv :=
  ⟨fun _ => true, fun _ => false, fun _ => none, false, false⟩

/-- A stand-in for the external SHA-1 hex digest in concrete evaluations
(any fixed pure function works; the theorems quantify over it). -/
def sha1Fx : String → String := fun _ => "00000000"

/-- A one-seed library under the `"neutral"` key. -/
def seedDataFx : String → Option (List Seed) :=
  fun m => if m = "neutral" then some [⟨"abc123", none⟩] else none

/-- A one-entry current week (one `"happy"` entry on Sunday). -/
def curFx : List Entry := [⟨"happy", [], 0⟩]

/-- A one-entry previous week (one `"neutral"` entry on Sunday). -/
def prevFx : List Entry := [⟨"neutral", [], 0⟩]

/-- A five-entry window fixture: `"gym"` on two `"happy"` entries,
`"tv"` on two `"stressed"` entries, one bare `"neutral"` entry. -/
def entriesFx : List Entry :=
  [⟨"happy", ["gym"], 0⟩, ⟨"happy", ["gym"], 1⟩,
   ⟨"stressed", ["tv"], 2⟩, ⟨"stressed", ["tv"], 3⟩, ⟨"neutral", [], 4⟩]

/-- A two-entry window fixture (`"gym"` on both, both `"happy"`). -/
def twoEntriesFx : List Entry := [⟨"happy", ["gym"], 0⟩, ⟨"happy", ["gym"], 1⟩]

end MoodPeek

namespace MoodPeek

/-! ### General helper lemmas -/

/-- Membership in `firstDedupAux`. -/
theorem mem_firstDedupAux (a : String) :
    ∀ (l : List String) (seen : List String),
      a ∈ firstDedupAux seen l ↔ a ∈ l ∧ a ∉ seen := by
  intro l
  induction l with
  | nil => intro seen; simp [firstDedupAux]
  | cons b rest ih =>
      intro seen
      by_cases hb : seen.contains b
      · rw [firstDedupAux, if_pos hb, ih]
        have hbseen : b ∈ seen := by
          simpa using hb
        constructor
        · rintro ⟨h1, h2⟩; exact ⟨List.mem_cons.mpr (Or.inr h1), h2⟩
        · rintro ⟨h1, h2⟩
          rcases List.mem_cons.mp h1 with h | h
          · exact absurd (h ▸ hbseen) h2
          · exact ⟨h, h2⟩
      · rw [firstDedupAux, if_neg hb]
        have hbseen : b ∉ seen := by
          simpa using hb
        constructor
        · intro h
          rcases List.mem_cons.mp h with h | h
          · exact ⟨List.mem_cons.mpr (Or.inl h), h ▸ hbseen⟩
          · rcases (ih (b :: seen)).mp h with ⟨h1, h2⟩
            refine ⟨List.mem_cons.mpr (Or.inr h1),
              fun hc => h2 (List.mem_cons_of_mem b hc)⟩
        · rintro ⟨h1, h2⟩
          rcases List.mem_cons.mp h1 with h | h
          · exact h ▸ List.mem_cons_self a _
          · by_cases hab : a = b
            · exact hab ▸ List.mem_cons_self a _
            · exact List.mem_cons_of_mem b
                ((ih (b :: seen)).mpr ⟨h, by simp [hab, h2]⟩)

/-- `firstDedup` preserves membership. -/
theorem mem_firstDedup (a : String) (l : List String) :
    a ∈ firstDedup l ↔ a ∈ l := by
  rw [firstDedup, mem_firstDedupAux]; simp

/-! ### C3 — client-side startup purge -/

/-- C3 counterexample: in a store holding one entry cached at the local
proxy path and one cached at a direct external host, `purgeExternalUrls`
removes the local-proxy entry and keeps the external one — the exact
opposite of the claimed behaviour. -/
theorem c3_counterexample :
    purgeExternalUrls
        [("img::cover::aaa", CacheVal.entry (some "/imgcache/abc.jpg")),
         ("img::cover::bbb", CacheVal.entry (some "https://images.unsplash.com/photo-1"))] =
      [("img::cover::bbb", CacheVal.entry (some "https://images.unsplash.com/photo-1"))] := by
  rfl

/-- C3 (amended): the startup purge removes exactly those persisted
image-cache entries (keys with the `img::` prefix) whose cached URL
contains the local proxy path `/imgcache/`, together with unparsable
entries; every other entry — in particular every entry pointing at a
direct external image host — is kept, and non-image keys are untouched. -/
theorem c3_amended (store : List (String × CacheVal)) :
    (∀ kv ∈ purgeExternalUrls store, kv ∈ store) ∧
    (∀ kv ∈ purgeExternalUrls store, strStarts kv.1 "img::" = true →
        kv.2 ≠ CacheVal.corrupt ∧
        ∀ u, kv.2 = CacheVal.entry (some u) → strHas u "/imgcache/" = false) ∧
    (∀ kv ∈ store,
        (strStarts kv.1 "img::" = false ∨
         (∃ u, kv.2 = CacheVal.entry (some u) ∧ strHas u "/imgcache/" = false) ∨
         kv.2 = CacheVal.entry none) →
        kv ∈ purgeExternalUrls store) := by
  refine ⟨fun kv hkv => List.mem_of_mem_filter hkv, ?_, ?_⟩
  · intro kv hkv hpref
    have hkeep : keepEntry kv = true := List.of_mem_filter hkv
    rw [keepEntry, hpref] at hkeep
    simp only [Bool.not_true, Bool.false_eq_true, if_false] at hkeep
    constructor
    · intro hc
      rw [hc] at hkeep
      exact absurd hkeep (by simp)
    · intro u hu
      rw [hu] at hkeep
      simpa using hkeep
  · intro kv hkv hcond
    refine List.mem_filter.mpr ⟨hkv, ?_⟩
    rcases hcond with h | ⟨u, hu, hurl⟩ | h
    · rw [keepEntry, h]; simp
    · rw [keepEntry, hu]
      by_cases hp : strStarts kv.1 "img::"
      · simp [hp, hurl]
      · simp [hp]
    · rw [keepEntry, h]
      by_cases hp : strStarts kv.1 "img::" <;> simp [hp]

/-- C3 witness: the amended theorem applied to a concrete store — the
external-host entry is kept. -/
theorem c3_amended_witness :
    ("img::cover::bbb", CacheVal.entry (some "https://images.unsplash.com/photo-1")) ∈
      purgeExternalUrls
        [("img::cover::bbb", CacheVal.entry (some "https://images.unsplash.com/photo-1"))] :=
  (c3_amended _).2.2 _ (by decide)
    (Or.inr (Or.inl ⟨"https://images.unsplash.com/photo-1", rfl, by decide⟩))

/-! ### C7 — content-safety filtering in photo selection -/

/-- C7: whatever photo `pickBestPhoto` selects comes from the provider
result set and matches no blocklisted term in any of its textual metadata
(alt text, description, tags, topic labels, matched case-insensitively):
any blocklist match excludes a candidate outright, so a blocked
candidate's image is never selected or returned. -/
theorem c7_theorem (results : List Photo) (width hgt : Nat) (p : Photo)
    (hp : pickBestPhoto results width hgt = some p) :
    p ∈ results ∧ containsBlockedContent (some p) = false := by
  rw [pickBestPhoto] at hp
  by_cases hres : results.isEmpty
  · rw [if_pos hres] at hp; exact absurd hp (by simp)
  rw [if_neg hres] at hp
  set safePhotos := results.filter (fun q => !containsBlockedContent (some q)) with hsafe
  by_cases hempty : safePhotos.isEmpty
  · rw [if_pos hempty] at hp; exact absurd hp (by simp)
  rw [if_neg hempty] at hp
  set scored := safePhotos.map (fun q => (q, scorePhoto (some q) width hgt)) with hscored
  rcases hms : scored.mergeSort (fun a b => decide (b.2 ≤ a.2)) with _ | ⟨best, rest⟩
  · rw [hms] at hp; exact absurd hp (by simp)
  rw [hms] at hp
  have hbp : p = best.1 := by
    have := Option.some.inj hp; exact this.symm
  have hmem : best ∈ scored := by
    have h1 : best ∈ scored.mergeSort (fun a b => decide (b.2 ≤ a.2)) := by
      rw [hms]; exact List.mem_cons_self _ _
    exact (List.mergeSort_perm scored _).mem_iff.mp h1
  rcases List.mem_map.mp hmem with ⟨q, hq, hqe⟩
  have hpq : p = q := by rw [hbp, ← hqe]
  rcases List.mem_filter.mp hq with ⟨hqr, hqs⟩
  subst hpq
  exact ⟨hqr, by simpa using hqs⟩

/-- C7 witness: with one blocked and one clean candidate, the clean one is
selected, is a member of the result set, and is unblocked. -/
theorem c7_witness :
    photoCleanFx ∈ [photoBlockedFx, photoCleanFx] ∧
    containsBlockedContent (some photoCleanFx) = false :=
  c7_theorem [photoBlockedFx, photoCleanFx] 800 520 photoCleanFx (by
    have hb : containsBlockedContent (some photoBlockedFx) = true := by decide
    have hc : containsBlockedContent (some photoCleanFx) = false := by decide
    simp [pickBestPhoto, List.filter_cons, hb, hc, List.mergeSort_singleton])

/-! ### C9 — deterministic seed selection -/

/-- C9: seed-library selection is a pure function of the lowercased city
and the effective (normalized) mood — two invocations agreeing on those
select the same seed, with no dependence on randomness — and any selected
seed comes from the library's list for the effective mood. -/
theorem c9_theorem (sha1 : String → String) (seedData : String → Option (List Seed))
    (city1 mood1 city2 mood2 : Option String)
    (hc : lowerStr (city1.getD "") = lowerStr (city2.getD ""))
    (hm : effectiveMood seedData mood1 = effectiveMood seedData mood2) :
    pickSeed sha1 seedData city1 mood1 = pickSeed sha1 seedData city2 mood2 ∧
    (∀ s, pickSeed sha1 seedData city1 mood1 = some s →
        ∃ seeds, seedData (effectiveMood seedData mood1) = some seeds ∧ s ∈ seeds) := by
  constructor
  · rw [pickSeed, pickSeed, hm, hc]
  · intro s hs
    rw [pickSeed] at hs
    rcases hsd : seedData (effectiveMood seedData mood1) with _ | seeds
    · simp only [hsd] at hs
      exact absurd hs (by simp)
    · simp only [hsd] at hs
      refine ⟨seeds, rfl, ?_⟩
      rcases hn : natOfHexPrefix (strTakeN
          (sha1 (lowerStr (city1.getD "") ++ "|" ++ effectiveMood seedData mood1)) 8) with _ | n
      · simp only [hn] at hs
        exact absurd hs (by simp)
      · simp only [hn] at hs
        by_cases hlen : seeds.length = 0
        · rw [if_pos hlen] at hs; exact absurd hs (by simp)
        · rw [if_neg hlen] at hs
          exact List.get?_mem hs

/-- C9 witness: the theorem applied to a concrete library — an absent city
and an empty-string city normalize alike and select the same seed. -/
theorem c9_witness :
    pickSeed sha1Fx seedDataFx none none = pickSeed sha1Fx seedDataFx (some "") none :=
  (c9_theorem sha1Fx seedDataFx none none (some "") none rfl rfl).1

/-! ### C10 — no-query requests share one cache slot -/

/-- Shape of every successful resolution: key and url are determined by
the request's normalized query and dimensions alone. -/
theorem getOrDownloadImage_ok_shape (sha1 : String → String) (env : ImgEnv)
    (req : ImgReq) (r : ImgResult)
    (h : getOrDownloadImage sha1 env req = Except.ok r) :
    r.key = diskKeyOf sha1 req ∧ r.url = "/imgcache/" ++ diskKeyOf sha1 req ++ ".jpg" := by
  rw [getOrDownloadImage] at h
  by_cases h1 : env.diskFresh (diskKeyOf sha1 req)
  · rw [if_pos h1] at h
    cases Option.some.inj (congrArg Except.toOption h)
    exact ⟨rfl, rfl⟩
  rw [if_neg h1] at h
  by_cases h2 : (coverQueryList req).any env.unsplashOk
  · rw [if_pos h2] at h
    cases Option.some.inj (congrArg Except.toOption h)
    exact ⟨rfl, rfl⟩
  rw [if_neg h2] at h
  rcases hseed : pickSeed sha1 env.seedData req.city (parsedMoodOf req) with _ | s
  · simp only [hseed] at h
    by_cases h4 : env.picsumOk
    · rw [if_pos h4] at h
      cases Except.ok.inj h
      exact ⟨rfl, rfl⟩
    · rw [if_neg h4] at h; exact absurd h (by simp)
  · simp only [hseed] at h
    by_cases h3 : s.id ≠ "" ∧ env.seedFetchOk
    · rw [if_pos h3] at h
      cases Except.ok.inj h
      exact ⟨rfl, rfl⟩
    · rw [if_neg h3] at h
      by_cases h4 : env.picsumOk
      · rw [if_pos h4] at h
        cases Except.ok.inj h
        exact ⟨rfl, rfl⟩
      · rw [if_neg h4] at h; exact absurd h (by simp)

/-- C10: any two successful resolutions whose query is empty or absent
(normalizes to `""`) and whose width and height agree produce the same
disk-cache key and the same url `/imgcache/<key>.jpg`, regardless of their
city, mood, weather or environment — all no-query requests at a given size
share one cached image slot. -/
theorem c10_theorem (sha1 : String → String) (env1 env2 : ImgEnv)
    (req1 req2 : ImgReq) (r1 r2 : ImgResult)
    (hq1 : normQ req1 = "") (hq2 : normQ req2 = "")
    (hw : req1.w = req2.w) (hh : req1.h = req2.h)
    (h1 : getOrDownloadImage sha1 env1 req1 = Except.ok r1)
    (h2 : getOrDownloadImage sha1 env2 req2 = Except.ok r2) :
    r1.key = r2.key ∧ r1.url = r2.url ∧ r1.url = "/imgcache/" ++ r1.key ++ ".jpg" := by
  obtain ⟨hk1, hu1⟩ := getOrDownloadImage_ok_shape sha1 env1 req1 r1 h1
  obtain ⟨hk2, hu2⟩ := getOrDownloadImage_ok_shape sha1 env2 req2 r2 h2
  have hkey : diskKeyOf sha1 req1 = diskKeyOf sha1 req2 := by
    rw [diskKeyOf, diskKeyOf, hq1, hq2, hw, hh]
  refine ⟨by rw [hk1, hk2, hkey], by rw [hu1, hu2, hkey], by rw [hu1, hk1]⟩

/-- C10 witness: the theorem at two concrete no-query requests of equal
size but different city, mood and weather, resolved from a fresh disk
cache. -/
theorem c10_witness :
    (ImgResult.mk ("/imgcache/" ++ sha1Fx "|800|520" ++ ".jpg") "disk" (sha1Fx "|800|520")).key =
      (ImgResult.mk ("/imgcache/" ++ sha1Fx "|800|520" ++ ".jpg") "disk" (sha1Fx "|800|520")).key ∧
    (ImgResult.mk ("/imgcache/" ++ sha1Fx "|800|520" ++ ".jpg") "disk" (sha1Fx "|800|520")).url =
      (ImgResult.mk ("/imgcache/" ++ sha1Fx "|800|520" ++ ".jpg") "disk" (sha1Fx "|800|520")).url ∧
    (ImgResult.mk ("/imgcache/" ++ sha1Fx "|800|520" ++ ".jpg") "disk" (sha1Fx "|800|520")).url =
      "/imgcache/" ++
        (ImgResult.mk ("/imgcache/" ++ sha1Fx "|800|520" ++ ".jpg") "disk" (sha1Fx "|800|520")).key
        ++ ".jpg" :=
  c10_theorem sha1Fx envDiskFx envDiskFx
    ⟨none, none, none, none, 800, 520⟩
    ⟨some "  ", some "Paris", some "happy", some ⟨"rain"⟩, 800, 520⟩
    _ _ (by decide) (by decide) rfl rfl rfl rfl

/-! ### C1 — totality of `getOrDownloadImage` -/

/-- C1 counterexample: with a cold disk cache and every provider layer
failing (primary provider for every candidate query, seed library,
placeholder provider), `getOrDownloadImage` does not return a result — it
throws `'Failed to fetch image from all providers'` to its caller. -/
theorem c1_counterexample :
    getOrDownloadImage sha1Fx envFailFx ⟨none, none, none, none, 800, 520⟩ =
      Except.error "Failed to fetch image from all providers" := by
  rfl

/-- C1 (amended): `getOrDownloadImage` returns a result `{url, source,
key}` exactly when some layer succeeds — the disk cache is fresh, or the
primary provider succeeds on some candidate query, or the seed library
yields a seed with a truthy id whose fetch succeeds, or the placeholder
provider succeeds; when all of these fail it instead raises an error to
its caller (which the `/cover` route converts to a 500 response). -/
theorem c1_amended (sha1 : String → String) (env : ImgEnv) (req : ImgReq) :
    (∃ r, getOrDownloadImage sha1 env req = Except.ok r) ↔
      (env.diskFresh (diskKeyOf sha1 req) = true ∨
       (coverQueryList req).any env.unsplashOk = true ∨
       (∃ s, pickSeed sha1 env.seedData req.city (parsedMoodOf req) = some s ∧
          s.id ≠ "" ∧ env.seedFetchOk = true) ∨
       env.picsumOk = true) := by
  rw [getOrDownloadImage]
  by_cases h1 : env.diskFresh (diskKeyOf sha1 req)
  · simp [h1]
  rw [if_neg h1]
  by_cases h2 : (coverQueryList req).any env.unsplashOk
  · simp [h1, h2]
  rw [if_neg h2]
  rcases hseed : pickSeed sha1 env.seedData req.city (parsedMoodOf req) with _ | s
  · by_cases h4 : env.picsumOk
    · simp [h1, h2, hseed, h4]
    · simp [h1, h2, hseed, h4]
  · simp only [hseed]
    by_cases h3 : s.id ≠ "" ∧ env.seedFetchOk
    · rw [if_pos h3]
      constructor
      · intro _
        exact Or.inr (Or.inr (Or.inl ⟨s, rfl, h3.1, h3.2⟩))
      · intro _; exact ⟨_, rfl⟩
    · rw [if_neg h3]
      by_cases h4 : env.picsumOk
      · rw [if_pos h4]
        constructor
        · intro _; exact Or.inr (Or.inr (Or.inr h4))
        · intro _; exact ⟨_, rfl⟩
      · rw [if_neg h4]
        constructor
        · rintro ⟨r, hr⟩
          exact absurd hr (by simp)
        · rintro (h | h | ⟨s1, hs1, hid, hsf⟩ | h)
          · exact absurd h (by simp [h1])
          · exact absurd h (by simp [h2])
          · cases Option.some.inj hs1
            exact absurd ⟨hid, hsf⟩ h3
          · exact absurd h (by simp [h4])

/-! ### C2 — weekly insights error classification -/

/-- C2 counterexample: for a malformed start date the `/weekly` route
answers with status 500 — a server error, not a 4xx-class response — the
catch-all handler wraps the thrown validation error. -/
theorem c2_counterexample :
    weeklyRoute (fun _ => false) [] [] (some "not-a-date") =
      (500, Except.error "Invalid start date") ∧
    ¬ ((weeklyRoute (fun _ => false) [] [] (some "not-a-date")).1 < 500) := by
  exact ⟨rfl, by decide⟩

/-- C2 (amended): a malformed (unparseable) start date makes
`computeWeeklyReport` throw `'Invalid start date'`, which the `/weekly`
route reports with HTTP status 500 (server error), not a 4xx; for every
well-formed start date (and for the default current-week path) the route
answers 200 with a report for any data — data sparsity, including an empty
window, never produces an error. -/
theorem c2_amended (dateValid : String → Bool) (cur prev : List Entry) (s : String) :
    (dateValid s = false → s ≠ "" →
        weeklyRoute dateValid cur prev (some s) = (500, Except.error "Invalid start date")) ∧
    (dateValid s = true →
        weeklyRoute dateValid cur prev (some s) =
          (200, Except.ok (computeWeeklyReportCore cur prev))) ∧
    weeklyRoute dateValid cur prev none = (200, Except.ok (computeWeeklyReportCore cur prev)) := by
  refine ⟨?_, ?_, ?_⟩
  · intro hv hne
    rw [weeklyRoute]
    simp only [hne, if_true, ne_eq, not_false_iff, if_pos]
    rw [computeWeeklyReport, hv]
    simp
  · intro hv
    rw [weeklyRoute]
    by_cases hne : s = ""
    · subst hne; simp
    · simp only [ne_eq, hne, not_false_iff, if_pos]
      rw [computeWeeklyReport, hv]
      simp
  · rw [weeklyRoute]

/-- C2 witness: the amended theorem at a valid date with an empty window —
the route answers 200. -/
theorem c2_amended_witness :
    weeklyRoute (fun _ => true) [] [] (some "2024-01-01") =
      (200, Except.ok (computeWeeklyReportCore [] [])) :=
  (c2_amended (fun _ => true) [] [] "2024-01-01").2.1 rfl

/-! ### C5 — trend classification -/

/-- Characterization of `trendOf` against the raw score difference. -/
theorem trendOf_improved_iff (c p : ℚ) :
    trendOf c (some p) = "improved" ↔ 3/10 < c - p := by
  rw [trendOf]
  by_cases h1 : 3/10 < |c - p|
  · rw [if_pos h1]
    by_cases h2 : p < c
    · rw [if_pos h2]
      simp only [true_iff]
      rw [abs_of_pos (by linarith : (0:ℚ) < c - p)] at h1
      exact h1
    · rw [if_neg h2]
      constructor
      · intro h; exact absurd h (by decide)
      · intro h; exact absurd (by linarith : p < c) h2
  · rw [if_neg h1]
    constructor
    · intro h; exact absurd h (by decide)
    · intro h
      exact absurd (lt_of_lt_of_le h (le_abs_self _)) h1

/-- Characterization of `trendOf` for the worsened case. -/
theorem trendOf_worsened_iff (c p : ℚ) :
    trendOf c (some p) = "worsened" ↔ c - p < -(3/10) := by
  rw [trendOf]
  by_cases h1 : 3/10 < |c - p|
  · rw [if_pos h1]
    by_cases h2 : p < c
    · rw [if_pos h2]
      constructor
      · intro h; exact absurd h (by decide)
      · intro h; exact absurd (by linarith : c < p) (by linarith)
    · rw [if_neg h2]
      simp only [true_iff]
      have hle : c ≤ p := le_of_not_lt h2
      rcases abs_cases (c - p) with ⟨he, _⟩ | ⟨he, _⟩
      · rw [he] at h1
        exact absurd (by linarith : p < c) h2
      · rw [he] at h1; linarith
  · rw [if_neg h1]
    constructor
    · intro h; exact absurd h (by decide)
    · intro h
      have : 3/10 < |c - p| := lt_of_lt_of_le (by linarith) (neg_le_abs _)
      exact absurd this h1

/-- Characterization of `trendOf` for the stable case. -/
theorem trendOf_stable_iff (c p : ℚ) :
    trendOf c (some p) = "stable" ↔ -(3/10) ≤ c - p ∧ c - p ≤ 3/10 := by
  rw [trendOf]
  by_cases h1 : 3/10 < |c - p|
  · rw [if_pos h1]
    constructor
    · intro h
      by_cases h2 : p < c
      · rw [if_pos h2] at h; exact absurd h (by decide)
      · rw [if_neg h2] at h; exact absurd h (by decide)
    · rintro ⟨ha, hb⟩
      exact absurd (abs_le.mpr ⟨by linarith, hb⟩) (not_le.mpr h1)
  · rw [if_neg h1]
    simp only [true_iff]
    have := abs_le.mp (le_of_not_lt h1)
    exact ⟨by linarith [this.1], this.2⟩

/-- C5: in every weekly report where both the current-week and the
previous-week mean score are present (both windows non-empty), the
reported trend is `"improved"` exactly when current − previous > 0.3,
`"worsened"` exactly when current − previous < −0.3, and `"stable"`
otherwise — including when the delta is exactly ±0.3. -/
theorem c5_theorem (cur prev : List Entry) (hc : cur ≠ []) (hp : prev ≠ []) :
    computeWeeklyReportCore cur prev = Report.full (coreFull cur prev) ∧
    (coreFull cur prev).previous = some (roundTo2 (listMeanScore prev)) ∧
    ((coreFull cur prev).trend = "improved" ↔
      3/10 < listMeanScore cur - listMeanScore prev) ∧
    ((coreFull cur prev).trend = "worsened" ↔
      listMeanScore cur - listMeanScore prev < -(3/10)) ∧
    ((coreFull cur prev).trend = "stable" ↔
      -(3/10) ≤ listMeanScore cur - listMeanScore prev ∧
        listMeanScore cur - listMeanScore prev ≤ 3/10) := by
  have hce : cur.isEmpty = false := by
    cases cur with
    | nil => exact absurd rfl hc
    | cons a l => rfl
  have hpe : prev.isEmpty = false := by
    cases prev with
    | nil => exact absurd rfl hp
    | cons a l => rfl
  have htrend : (coreFull cur prev).trend =
      trendOf (listMeanScore cur) (some (listMeanScore prev)) := by
    rw [coreFull]; simp [hpe]
  have hprevf : (coreFull cur prev).previous = some (roundTo2 (listMeanScore prev)) := by
    rw [coreFull]; simp [hpe]
  refine ⟨by rw [computeWeeklyReportCore, hce]; simp, hprevf, ?_, ?_, ?_⟩
  · rw [htrend]; exact trendOf_improved_iff _ _
  · rw [htrend]; exact trendOf_worsened_iff _ _
  · rw [htrend]; exact trendOf_stable_iff _ _

/-- C5 witness: the theorem at concrete one-entry windows. -/
theorem c5_witness :
    computeWeeklyReportCore curFx prevFx = Report.full (coreFull curFx prevFx) :=
  (c5_theorem curFx prevFx (by decide) (by decide)).1

/-! ### C6 — rate limiter admission -/

/-- `refillTokens` does not change the hourly quota. -/
theorem refillTokens_hourlyQuota (s : RLState) (now : Int) :
    (s.refillTokens now).hourlyQuota = s.hourlyQuota := by
  simp only [RLState.refillTokens]
  split <;> rfl

/-- Admission implies the pruned trailing-hour request log is below the
hourly quota. -/
theorem rl_admit_quota (s : RLState) (now : Int)
    (h : (s.consumeToken now).1 = true) :
    (s.refillTokens now).requestLog.length < s.hourlyQuota := by
  rw [RLState.consumeToken, RLState.canMakeRequest] at h
  by_cases hb : (decide (1 ≤ (s.refillTokens now).tokens) &&
      decide ((s.refillTokens now).requestLog.length < (s.refillTokens now).hourlyQuota)) = true
  · have h2 := ((Bool.and_eq_true _ _).mp hb).2
    have h3 := of_decide_eq_true h2
    rwa [refillTokens_hourlyQuota] at h3
  · rw [if_neg hb] at h
    exact absurd h (by simp)

/-- Zero-elapsed-time refill at `now = 0` from `lastRefill = 0` is the
identity when every logged time is nonnegative. -/
theorem rl_refill_zero (tk : ℚ) (log : List Int) (h3 : ∀ t ∈ log, (0:Int) ≤ t) :
    RLState.refillTokens ⟨5, tk, 0, 50/3600, log, 50⟩ 0 = ⟨5, tk, 0, 50/3600, log, 50⟩ := by
  rw [RLState.refillTokens]
  have hadd : ¬ ((1:ℚ) ≤ (((0:Int) - 0 : Int) : ℚ) / 1000 * (50/3600)) := by norm_num
  rw [if_neg hadd]
  have hfil : log.filter (fun t => decide ((0:Int) - 3600000 < t)) = log :=
    List.filter_eq_self.mpr (fun a ha => by
      have := h3 a ha
      simp only [decide_eq_true_eq]
      omega)
  simp only [hfil]

/-- One admitted zero-elapsed `consumeToken` step. -/
theorem rl_step (tk : ℚ) (log : List Int) (h1 : 1 ≤ tk) (h2 : log.length < 50)
    (h3 : ∀ t ∈ log, (0:Int) ≤ t) :
    RLState.consumeToken ⟨5, tk, 0, 50/3600, log, 50⟩ 0 =
      (true, ⟨5, tk - 1, 0, 50/3600, log ++ [0], 50⟩) := by
  rw [RLState.consumeToken, RLState.canMakeRequest, rl_refill_zero tk log h3]
  have hc : (decide (1 ≤ tk) && decide (log.length < 50)) = true := by
    rw [decide_eq_true h1, decide_eq_true h2]; rfl
  simp only [hc, if_true]

/-- The rejected sixth zero-elapsed `consumeToken` step. -/
theorem rl_step_fail :
    RLState.consumeToken ⟨5, 0, 0, 50/3600, [0, 0, 0, 0, 0], 50⟩ 0 =
      (false, ⟨5, 0, 0, 50/3600, [0, 0, 0, 0, 0], 50⟩) := by
  rw [RLState.consumeToken, RLState.canMakeRequest,
    rl_refill_zero 0 [0, 0, 0, 0, 0] (by simp)]
  have hc : (decide ((1:ℚ) ≤ 0) && decide (([(0:Int), 0, 0, 0, 0]).length < 50)) = false := by
    norm_num
  simp [hc]

/-- The unsplash limiter's constructor state. -/
theorem rl_new_eval : rlNew 50 5 3600000 0 = ⟨5, 5, 0, 50/3600, [], 50⟩ := by
  rw [rlNew]
  simp only [RLState.mk.injEq]
  norm_num

/-- Refill after one full refill interval (one hour): the bucket refills
to capacity and the trailing-hour log empties. -/
theorem rl_refill_hour :
    RLState.refillTokens ⟨5, 0, 0, 50/3600, [0, 0, 0, 0, 0], 50⟩ 3600000 =
      ⟨5, 5, 3600000, 50/3600, [], 50⟩ := by
  rw [RLState.refillTokens]
  have hadd : (1:ℚ) ≤ (((3600000:Int) - 0 : Int) : ℚ) / 1000 * (50/3600) := by norm_num
  rw [if_pos hadd]
  simp only [RLState.mk.injEq]
  norm_num

/-- C6: with burst capacity 5 (the unsplash limiter configuration: 50
requests/hour, burst 5, one-hour refill interval) and zero elapsed time,
exactly the first 5 consecutive `consumeToken` calls succeed and the 6th
fails; after one full refill interval elapses, admission succeeds again;
and every admitted call additionally requires that fewer than the hourly
quota of logged requests remain in the trailing hour. -/
theorem c6_theorem :
    (rlConsumeSeq (rlNew 50 5 3600000 0) [0, 0, 0, 0, 0, 0]).1 =
      [true, true, true, true, true, false] ∧
    ((rlConsumeSeq (rlNew 50 5 3600000 0) [0, 0, 0, 0, 0, 0]).2.consumeToken 3600000).1 = true ∧
    (∀ (s : RLState) (now : Int), (s.consumeToken now).1 = true →
        (s.refillTokens now).requestLog.length < s.hourlyQuota) := by
  have e1 : RLState.consumeToken ⟨5, 5, 0, 50/3600, [], 50⟩ 0 =
      (true, ⟨5, 4, 0, 50/3600, [0], 50⟩) := by
    rw [rl_step 5 [] (by norm_num) (by norm_num) (by simp)]
    norm_num
  have e2 : RLState.consumeToken ⟨5, 4, 0, 50/3600, [0], 50⟩ 0 =
      (true, ⟨5, 3, 0, 50/3600, [0, 0], 50⟩) := by
    rw [rl_step 4 [0] (by norm_num) (by norm_num) (by simp)]
    norm_num
  have e3 : RLState.consumeToken ⟨5, 3, 0, 50/3600, [0, 0], 50⟩ 0 =
      (true, ⟨5, 2, 0, 50/3600, [0, 0, 0], 50⟩) := by
    rw [rl_step 3 [0, 0] (by norm_num) (by norm_num) (by simp)]
    norm_num
  have e4 : RLState.consumeToken ⟨5, 2, 0, 50/3600, [0, 0, 0], 50⟩ 0 =
      (true, ⟨5, 1, 0, 50/3600, [0, 0, 0, 0], 50⟩) := by
    rw [rl_step 2 [0, 0, 0] (by norm_num) (by norm_num) (by simp)]
    norm_num
  have e5 : RLState.consumeToken ⟨5, 1, 0, 50/3600, [0, 0, 0, 0], 50⟩ 0 =
      (true, ⟨5, 0, 0, 50/3600, [0, 0, 0, 0, 0], 50⟩) := by
    rw [rl_step 1 [0, 0, 0, 0] (by norm_num) (by norm_num) (by simp)]
    norm_num
  have hseq : rlConsumeSeq (rlNew 50 5 3600000 0) [0, 0, 0, 0, 0, 0] =
      ([true, true, true, true, true, false], ⟨5, 0, 0, 50/3600, [0, 0, 0, 0, 0], 50⟩) := by
    rw [rl_new_eval]
    simp only [rlConsumeSeq, e1, e2, e3, e4, e5, rl_step_fail]
  refine ⟨by rw [hseq], ?_, fun s now h => rl_admit_quota s now h⟩
  rw [hseq]
  rw [RLState.consumeToken, RLState.canMakeRequest, rl_refill_hour]
  have hc : (decide ((1:ℚ) ≤ 5) && decide (([] : List Int).length < 50)) = true := by
    norm_num
  simp only [hc, if_true]

/-- C6 witness: the admission invariant applied to the very first call of
the concrete limiter. -/
theorem c6_witness :
    ((rlNew 50 5 3600000 0).refillTokens 0).requestLog.length <
      (rlNew 50 5 3600000 0).hourlyQuota :=
  c6_theorem.2.2 (rlNew 50 5 3600000 0) 0 (by
    rw [rl_new_eval]
    have h := rl_step 5 [] (by norm_num) (by norm_num) (by simp)
    rw [h])

/-! ### C8 — cache-key purity and second-call idempotence -/

/-- A missing lookup means the key is absent. -/
theorem mlookup_eq_none_iff (k : String) (l : List (String × MemVal)) :
    mlookup k l = none ↔ k ∉ l.map Prod.fst := by
  induction l with
  | nil => simp [mlookup]
  | cons kv rest ih =>
      obtain ⟨k1, v⟩ := kv
      by_cases h : k1 = k
      · subst h; simp [mlookup]
      · rw [mlookup, if_neg h]
        simp only [List.map_cons, List.mem_cons, not_or, ih]
        constructor
        · intro hr; exact ⟨fun he => h he.symm, hr⟩
        · intro hr; exact hr.2

/-- Erasing a key from a store with distinct keys removes it entirely. -/
theorem merase_not_mem (k : String) (l : List (String × MemVal))
    (hnd : (l.map Prod.fst).Nodup) : k ∉ (merase k l).map Prod.fst := by
  induction l with
  | nil => simp [merase]
  | cons kv rest ih =>
      obtain ⟨k1, v⟩ := kv
      simp only [List.map_cons, List.nodup_cons] at hnd
      by_cases h : k1 = k
      · subst h
        rw [merase, if_pos rfl]
        exact hnd.1
      · rw [merase, if_neg h]
        simp only [List.map_cons, List.mem_cons, not_or]
        exact ⟨fun he => h he.symm, ih hnd.2⟩

/-- `Map.set` of an absent key appends the entry. -/
theorem mset_not_mem (k : String) (v : MemVal) (l : List (String × MemVal))
    (h : k ∉ l.map Prod.fst) : mset k v l = l ++ [(k, v)] := by
  induction l with
  | nil => rfl
  | cons kv rest ih =>
      obtain ⟨k1, v1⟩ := kv
      simp only [List.map_cons, List.mem_cons, not_or] at h
      rw [mset, if_neg (fun he => h.1 he.symm), ih h.2]
      rfl

/-- Looking up a key appended behind entries that all miss it. -/
theorem mlookup_append_self (k : String) (v : MemVal) (l : List (String × MemVal))
    (h : k ∉ l.map Prod.fst) : mlookup k (l ++ [(k, v)]) = some v := by
  induction l with
  | nil => simp [mlookup]
  | cons kv rest ih =>
      obtain ⟨k1, v1⟩ := kv
      simp only [List.map_cons, List.mem_cons, not_or] at h
      rw [List.cons_append, mlookup, if_neg (fun he => h.1 he.symm)]
      exact ih h.2

/-- After a successful miss-path fetch, the memory cache holds the fresh
result under the request's memory key (the FIFO eviction of the oldest
entry never evicts the just-inserted one). -/
theorem cachedFetch_ok_lookup (sha1 : String → String) (env : ImgEnv) (now : Int)
    (l1 : List (String × MemVal)) (o : ImgReq) (r : ImgResult)
    (mem2 : List (String × MemVal)) (c : Bool)
    (hk : memCacheKey o ∉ l1.map Prod.fst)
    (h : cachedFetch sha1 env now l1 o = (Except.ok r, mem2, c)) :
    mlookup (memCacheKey o) mem2 = some ⟨now, r⟩ := by
  rw [cachedFetch] at h
  rcases hg : getOrDownloadImage sha1 env o with e | r0
  · simp only [hg] at h
    exact absurd h (by simp)
  · simp only [hg] at h
    injection h with ha hb
    injection hb with hb1 hb2
    cases Except.ok.inj ha
    subst hb1
    rw [mset_not_mem _ _ _ hk]
    by_cases hlen : maxMemoryCache < (l1 ++ [(memCacheKey o, (⟨now, r⟩ : MemVal))]).length
    · rw [if_pos hlen]
      cases l1 with
      | nil => simp [maxMemoryCache] at hlen
      | cons a t =>
          simp only [List.cons_append, List.tail_cons]
          apply mlookup_append_self
          intro hmem
          exact hk (List.mem_cons_of_mem _ hmem)
    · rw [if_neg hlen]
      exact mlookup_append_self _ _ _ hk

/-- C8: the disk-cache key is a pure function of the normalized query and
the dimensions (queries with equal normalization always produce the same
key); and after any successful resolution through the memory-cached entry
point, the result is stored under the request's memory key, so a second
call with the same options before TTL expiry returns the identical result
(hence identical key and url) from the memory cache without invoking the
inner resolver (and hence without invoking the external provider). -/
theorem c8_theorem :
    (∀ (sha1 : String → String) (q1 q2 : String) (width hgt : Nat),
        trimStr (lowerStr q1) = trimStr (lowerStr q2) →
        generateKey sha1 q1 width hgt = generateKey sha1 q2 width hgt) ∧
    (∀ (sha1 : String → String) (env : ImgEnv) (now : Int)
        (mem : List (String × MemVal)) (o : ImgReq) (r : ImgResult)
        (mem2 : List (String × MemVal)) (c : Bool),
        (mem.map Prod.fst).Nodup →
        getOrDownloadImageCached sha1 env now mem o = (Except.ok r, mem2, c) →
        ∃ ts : Int, mlookup (memCacheKey o) mem2 = some ⟨ts, r⟩ ∧
          ∀ (sha1b : String → String) (envb : ImgEnv) (nowb : Int),
            nowb - ts < cacheTtlMs →
            getOrDownloadImageCached sha1b envb nowb mem2 o =
              (Except.ok r, mem2, false)) := by
  have hsecond : ∀ (mem2 : List (String × MemVal)) (ts : Int) (r : ImgResult) (o : ImgReq),
      mlookup (memCacheKey o) mem2 = some ⟨ts, r⟩ →
      ∀ (sha1b : String → String) (envb : ImgEnv) (nowb : Int),
        nowb - ts < cacheTtlMs →
        getOrDownloadImageCached sha1b envb nowb mem2 o = (Except.ok r, mem2, false) := by
    intro mem2 ts r o hlk sha1b envb nowb hfresh
    rw [getOrDownloadImageCached]
    simp only [hlk]
    rw [if_pos hfresh]
  constructor
  · intro sha1 q1 q2 width hgt hq
    rw [generateKey, generateKey, hq]
  · intro sha1 env now mem o r mem2 c hnd hcall
    rw [getOrDownloadImageCached] at hcall
    rcases hml : mlookup (memCacheKey o) mem with _ | v
    · simp only [hml] at hcall
      have hk : memCacheKey o ∉ mem.map Prod.fst := (mlookup_eq_none_iff _ _).mp hml
      have hres := cachedFetch_ok_lookup sha1 env now mem o r mem2 c hk hcall
      exact ⟨now, hres, fun s e n hf => hsecond mem2 now r o hres s e n hf⟩
    · simp only [hml] at hcall
      by_cases hf : now - v.timestamp < cacheTtlMs
      · rw [if_pos hf] at hcall
        injection hcall with ha hb
        injection hb with hb1 hb2
        cases Except.ok.inj ha
        subst hb1
        refine ⟨v.timestamp, ?_, ?_⟩
        · rw [hml]
        · intro s e n hfr
          refine hsecond mem v.timestamp v.data o (by rw [hml]) s e n hfr
      · rw [if_neg hf] at hcall
        have hk : memCacheKey o ∉ (merase (memCacheKey o) mem).map Prod.fst :=
          merase_not_mem _ _ hnd
        have hres := cachedFetch_ok_lookup sha1 env now _ o r mem2 c hk hcall
        exact ⟨now, hres, fun s e n hfr => hsecond mem2 now r o hres s e n hfr⟩

/-- C8 witness: key purity at a concrete query pair differing only in case
and surrounding whitespace. -/
theorem c8_witness :
    generateKey (fun s => s) " Sunset " 800 520 = generateKey (fun s => s) "sunset" 800 520 :=
  c8_theorem.1 (fun s => s) " Sunset " "sunset" 800 520 (by decide)

/-! ### C4 — tag/activity correlation -/

/-- With duplicate-free per-entry tag lists, the occurrence count of the
first pass equals the number of entries bearing the tag. -/
theorem occCount_eq (entries : List Entry) (a : String)
    (hnd : ∀ e ∈ entries, e.activities.Nodup) :
    occCount entries a = entryCountWith entries a := by
  induction entries with
  | nil => rfl
  | cons e l ih =>
      have hnd' : ∀ x ∈ l, x.activities.Nodup :=
        fun x hx => hnd x (List.mem_cons_of_mem _ hx)
      have hh := hnd e (List.mem_cons_self _ _)
      simp only [occCount, List.map_cons, List.sum_cons, entryCountWith, List.countP_cons]
      rw [← occCount, ← entryCountWith, ih hnd']
      by_cases hm : a ∈ e.activities
      · rw [List.count_eq_one_of_mem hh hm, if_pos (by simpa using hm)]
        omega
      · rw [List.count_eq_zero_of_not_mem hm, if_neg (by simpa using hm)]
        omega

/-- With duplicate-free per-entry tag lists, the first-pass score total
equals the sum of mood scores over the entries bearing the tag. -/
theorem occTotal_eq (entries : List Entry) (a : String)
    (hnd : ∀ e ∈ entries, e.activities.Nodup) :
    occTotal entries a = ((entriesWith entries a).map (fun e => moodToScore e.mood)).sum := by
  induction entries with
  | nil => rfl
  | cons e l ih =>
      have hnd' : ∀ x ∈ l, x.activities.Nodup :=
        fun x hx => hnd x (List.mem_cons_of_mem _ hx)
      have hh := hnd e (List.mem_cons_self _ _)
      simp only [occTotal, List.map_cons, List.sum_cons, entriesWith, List.filter_cons]
      rw [← occTotal, ih hnd']
      by_cases hm : a ∈ e.activities
      · rw [List.count_eq_one_of_mem hh hm, if_pos (by simpa using hm)]
        simp [entriesWith]
      · rw [List.count_eq_zero_of_not_mem hm, if_neg (by simpa using hm)]
        simp [entriesWith]

/-- The number of entries bearing a tag is the length of their list. -/
theorem entryCountWith_eq_length (entries : List Entry) (a : String) :
    entryCountWith entries a = (entriesWith entries a).length := by
  rw [entryCountWith, entriesWith, List.countP_eq_length_filter]

/-- Casting an integer score sum into `ℚ` commutes with summing the cast
scores. -/
theorem sum_scores_cast (l : List Entry) :
    ((l.map (fun e => (moodToScore e.mood : ℚ))).sum) =
      (((l.map (fun e => moodToScore e.mood)).sum : Int) : ℚ) := by
  induction l with
  | nil => simp
  | cons e t ih => simp [ih]

/-- With duplicate-free per-entry tag lists, the code's per-activity
average equals the claim's mean mood score over entries bearing the tag. -/
theorem activityAvg_eq (entries : List Entry) (a : String)
    (hnd : ∀ e ∈ entries, e.activities.Nodup) :
    activityAvg entries a = meanScoreWith entries a := by
  rw [activityAvg, meanScoreWith, listMeanScore, sum_scores_cast,
    ← occTotal_eq entries a hnd, ← entryCountWith_eq_length,
    ← occCount_eq entries a hnd]

/-- A tag borne by at least one entry is an `activityMoodMap` key. -/
theorem mem_activityKeys (entries : List Entry) (a : String)
    (h : 0 < entryCountWith entries a) : a ∈ activityKeys entries := by
  rw [entryCountWith, List.countP_pos_iff] at h
  obtain ⟨e, he, hc⟩ := h
  rw [activityKeys, mem_firstDedup]
  exact List.mem_flatMap.mpr ⟨e, he, by simpa using hc⟩

/-- C4 counterexample: in a 2-entry window where the tag `"gym"` appears
on both entries with mean mood score +2 (≥ +0.5), the correlation lists
are nevertheless both empty — `findMoodActivityCorrelations` returns no
contributors for windows of fewer than 5 entries, so the claimed listing
fails. -/
theorem c4_counterexample :
    (findMoodActivityCorrelations twoEntriesFx).1 = [] ∧
    (findMoodActivityCorrelations twoEntriesFx).2 = [] ∧
    2 ≤ entryCountWith twoEntriesFx "gym" ∧
    (1 : ℚ)/2 ≤ meanScoreWith twoEntriesFx "gym" := by
  refine ⟨?_, ?_, by decide, ?_⟩
  · rw [findMoodActivityCorrelations, if_pos (by decide)]
  · rw [findMoodActivityCorrelations, if_pos (by decide)]
  · have he : entriesWith twoEntriesFx "gym" = twoEntriesFx := rfl
    have hm : moodToScore "happy" = 2 := by decide
    rw [meanScoreWith, he, listMeanScore]
    simp only [twoEntriesFx, List.map_cons, List.map_nil, List.sum_cons, List.sum_nil,
      List.length_cons, List.length_nil, hm]
    norm_num

/-- C4 (amended): in every weekly window of at least 5 entries (the code
returns empty correlation lists below that window size) whose per-entry
tag lists are duplicate-free (the data model stores tags deduplicated),
every tag on at least 2 entries with mean mood score ≥ +0.5 is listed as a
positive contributor and with mean ≤ −0.5 as a negative contributor (with
its occurrence count), a tag on exactly 1 entry appears in neither list,
and positives are sorted descending / negatives ascending by their
(rounded) score. -/
theorem c4_amended (entries : List Entry) (h5 : 5 ≤ entries.length)
    (hnd : ∀ e ∈ entries, e.activities.Nodup) :
    (∀ a : String,
      ((2 ≤ entryCountWith entries a ∧ 1/2 ≤ meanScoreWith entries a) →
        ∃ s ∈ (findMoodActivityCorrelations entries).1,
          s.activity = a ∧ s.occurrences = entryCountWith entries a) ∧
      ((2 ≤ entryCountWith entries a ∧ meanScoreWith entries a ≤ -(1/2)) →
        ∃ s ∈ (findMoodActivityCorrelations entries).2,
          s.activity = a ∧ s.occurrences = entryCountWith entries a) ∧
      (entryCountWith entries a = 1 →
        (∀ s ∈ (findMoodActivityCorrelations entries).1, s.activity ≠ a) ∧
        (∀ s ∈ (findMoodActivityCorrelations entries).2, s.activity ≠ a))) ∧
    List.Pairwise (fun x y : ActivityStat => y.score ≤ x.score)
      (findMoodActivityCorrelations entries).1 ∧
    List.Pairwise (fun x y : ActivityStat => x.score ≤ y.score)
      (findMoodActivityCorrelations entries).2 := by
  have hlen : ¬ entries.length < 5 := not_lt.mpr h5
  have h1 : (findMoodActivityCorrelations entries).1 =
      (((activityKeys entries).filter (isPosActivity entries)).map
        (mkActivityStat entries)).mergeSort (fun a b => decide (b.score ≤ a.score)) := by
    rw [findMoodActivityCorrelations, if_neg hlen]
  have h2 : (findMoodActivityCorrelations entries).2 =
      (((activityKeys entries).filter (isNegActivity entries)).map
        (mkActivityStat entries)).mergeSort (fun a b => decide (a.score ≤ b.score)) := by
    rw [findMoodActivityCorrelations, if_neg hlen]
  refine ⟨?_, ?_, ?_⟩
  · intro a
    refine ⟨?_, ?_, ?_⟩
    · rintro ⟨hc2, havg⟩
      have hocc := occCount_eq entries a hnd
      have hcond : isPosActivity entries a = true := by
        rw [isPosActivity]
        have hx : 2 ≤ occCount entries a := hocc ▸ hc2
        have hy : (1:ℚ)/2 ≤ activityAvg entries a := by
          rw [activityAvg_eq entries a hnd]; exact havg
        simp only [Bool.and_eq_true, decide_eq_true_eq]
        exact ⟨hx, hy⟩
      have hmemf : a ∈ (activityKeys entries).filter (isPosActivity entries) :=
        List.mem_filter.mpr ⟨mem_activityKeys entries a (by omega), hcond⟩
      refine ⟨mkActivityStat entries a, ?_, rfl, ?_⟩
      · rw [h1]
        exact (List.mergeSort_perm _ _).mem_iff.mpr (List.mem_map_of_mem _ hmemf)
      · rw [mkActivityStat]; exact hocc
    · rintro ⟨hc2, havg⟩
      have hocc := occCount_eq entries a hnd
      have hcond : isNegActivity entries a = true := by
        rw [isNegActivity]
        have hx : 2 ≤ occCount entries a := hocc ▸ hc2
        have hyn : ¬ ((1:ℚ)/2 ≤ activityAvg entries a) := by
          rw [activityAvg_eq entries a hnd]
          intro hcontra; linarith
        have hy : activityAvg entries a ≤ -(1/2) := by
          rw [activityAvg_eq entries a hnd]; exact havg
        simp only [Bool.and_eq_true, Bool.not_eq_true', decide_eq_true_eq,
          decide_eq_false_iff_not]
        exact ⟨⟨hx, hyn⟩, hy⟩
      have hmemf : a ∈ (activityKeys entries).filter (isNegActivity entries) :=
        List.mem_filter.mpr ⟨mem_activityKeys entries a (by omega), hcond⟩
      refine ⟨mkActivityStat entries a, ?_, rfl, ?_⟩
      · rw [h2]
        exact (List.mergeSort_perm _ _).mem_iff.mpr (List.mem_map_of_mem _ hmemf)
      · rw [mkActivityStat]; exact hocc
    · intro h1a
      have hocc := occCount_eq entries a hnd
      constructor
      · intro s hs hsa
        rw [h1] at hs
        have hs2 := (List.mergeSort_perm _ _).mem_iff.mp hs
        obtain ⟨b, hb, hbe⟩ := List.mem_map.mp hs2
        have hba : b = a := by rw [← hsa, ← hbe, mkActivityStat]
        subst hba
        have hcond := (List.mem_filter.mp hb).2
        rw [isPosActivity] at hcond
        have h2le := of_decide_eq_true ((Bool.and_eq_true _ _).mp hcond).1
        omega
      · intro s hs hsa
        rw [h2] at hs
        have hs2 := (List.mergeSort_perm _ _).mem_iff.mp hs
        obtain ⟨b, hb, hbe⟩ := List.mem_map.mp hs2
        have hba : b = a := by rw [← hsa, ← hbe, mkActivityStat]
        subst hba
        have hcond := (List.mem_filter.mp hb).2
        rw [isNegActivity] at hcond
        have h2le := of_decide_eq_true
          ((Bool.and_eq_true _ _).mp ((Bool.and_eq_true _ _).mp hcond).1).1
        omega
  · rw [h1]
    have hsorted := @List.sorted_mergeSort ActivityStat
      (fun x y : ActivityStat => decide (y.score ≤ x.score))
      (fun x y z hxy hyz => by
        simp only [decide_eq_true_eq] at *
        exact le_trans hyz hxy)
      (fun x y => by
        by_cases h : y.score ≤ x.score
        · simp [h]
        · simp [le_of_not_le h])
      (((activityKeys entries).filter (isPosActivity entries)).map (mkActivityStat entries))
    simpa using hsorted
  · rw [h2]
    have hsorted := @List.sorted_mergeSort ActivityStat
      (fun x y : ActivityStat => decide (x.score ≤ y.score))
      (fun x y z hxy hyz => by
        simp only [decide_eq_true_eq] at *
        exact le_trans hxy hyz)
      (fun x y => by
        by_cases h : x.score ≤ y.score
        · simp [h]
        · simp [le_of_not_le h])
      (((activityKeys entries).filter (isNegActivity entries)).map (mkActivityStat entries))
    simpa using hsorted

/-- C4 witness: the amended theorem at a concrete 5-entry window — the
positive contributor list is sorted descending by score. -/
theorem c4_amended_witness :
    List.Pairwise (fun x y : ActivityStat => y.score ≤ x.score)
      (findMoodActivityCorrelations entriesFx).1 :=
  (c4_amended entriesFx (by decide) (by decide)).2.1

end MoodPeek
